import Mathlib

/-!
Verification of the CSV-to-D3 starterkit chart functions.

The repository contains three chart functions in JavaScript
(`simpleLineChart`, `multipleLineChart`, `simplePieChart`) plus a
documented fourth variant (the aggregated multi-column pie chart) whose
source file is absent from the snapshot.  This development shallowly
embeds the data pipeline of those functions: CSV rows as association
lists of JavaScript values, the numeric-coercion loops, the scale and
pie-layout constructions, the DOM side effects (mount point, legend,
checkboxes), and the fetch error handling.

JavaScript numbers are modelled as exact rationals plus a NaN sentinel
(the floating-point idealization); angles are carried as fractions of a
full turn, converted to radians (multiples of 2π) only in theorem
statements.  The D3 library itself is not part of the repository; the
primitives the code calls (`d3.pie`, `d3.scaleLinear`, `d3.extent`,
`d3.max`, `d3.line`, selection append) are modelled from the
specification's contract for them (§4.3, §4.4), and are marked
`Modelled from the spec:` below.
-/

namespace CsvToD3

/-- A JavaScript number: an exact rational or the NaN sentinel. -/
inductive JSNum where
  | num (q : ℚ)
  | nan
deriving DecidableEq, Repr

/-- JavaScript addition on numbers: NaN is absorbing. -/
def JSNum.add : JSNum → JSNum → JSNum
  | .num a, .num b => .num (a + b)
  | _, _ => .nan

/-- JavaScript `Math.max` on two numbers: NaN is absorbing. -/
def JSNum.jmax : JSNum → JSNum → JSNum
  | .num a, .num b => .num (max a b)
  | _, _ => .nan

/-- A JavaScript value stored in a parsed CSV row: a raw string as
produced by the CSV parser, or a number written by the coercion loop. -/
inductive JSVal where
  | vstr (s : String)
  | vnum (n : JSNum)
deriving DecidableEq, Repr

/-- A parsed CSV row: an ordered association of column name to value.
Field update keeps the key order of the JavaScript object. -/
abbrev Record := List (String × JSVal)

/-- Property access `d[k]`: `none` models JavaScript `undefined`. -/
def getField : Record → String → Option JSVal
  | [], _ => none
  | (k', v) :: rest, k => if k' = k then some v else getField rest k

/-- Property assignment `d[k] = v`: overwrite in place if the key
exists, else append (JavaScript object key-order semantics). -/
def setField : Record → String → JSVal → Record
  | [], k, v => [(k, v)]
  | (k', v') :: rest, k, v =>
      if k' = k then (k', v) :: rest else (k', v') :: setField rest k v

/-- Numeric value of a decimal digit string, most significant first. -/
def natOfDigits (cs : List Char) : ℕ :=
  cs.foldl (fun a c => 10 * a + (c.toNat - 48)) 0

/-- Parse an unsigned decimal literal (`12`, `12.5`, `.5`, `12.`);
`none` on any other shape.  Scientific and hexadecimal literals, which
JavaScript would also accept, are outside the model (no claim uses
them). -/
def parseUnsigned (cs : List Char) : Option ℚ :=
  let ip := cs.takeWhile Char.isDigit
  let rest := cs.dropWhile Char.isDigit
  match rest with
  | [] => if ip.isEmpty then none else some (natOfDigits ip)
  | '.' :: fp =>
      if fp.all Char.isDigit && (!ip.isEmpty || !fp.isEmpty) then
        some ((natOfDigits ip : ℚ) + (natOfDigits fp : ℚ) / (10 : ℚ) ^ fp.length)
      else none
  | _ => none

/-- Parse an optionally signed decimal literal. -/
def parseSigned (cs : List Char) : Option ℚ :=
  match cs with
  | '-' :: rest => (parseUnsigned rest).map (fun q => -q)
  | '+' :: rest => parseUnsigned rest
  | _ => parseUnsigned cs

/-- Whitespace characters trimmed by JavaScript numeric coercion. -/
def isWS (c : Char) : Bool :=
  c = ' ' || c = '\t' || c = '\n' || c = '\r'

/-- Trim leading and trailing whitespace. -/
def trimWS (cs : List Char) : List Char :=
  ((cs.dropWhile isWS).reverse.dropWhile isWS).reverse

/-- JavaScript unary-plus coercion `+v`: `undefined` gives NaN, a
number stays itself, a string is trimmed and parsed (the empty string
gives 0, an unparseable string gives NaN).  Total: coercion never
throws. -/
def toNumber : Option JSVal → JSNum
  | none => .nan
  | some (.vnum n) => n
  | some (.vstr s) =>
      let t := trimWS s.toList
      if t.isEmpty then .num 0
      else
        match parseSigned t with
        | some q => .num q
        | none => .nan

/-- The coercion loop shared by `simpleLineChart` and `simplePieChart`:
`d.week = +d[xAxisLabel]; d.amount = +d[yAxisLabel]` — note the second
assignment reads the record already updated by the first. -/
def coerceRowSLC (x y : String) (d : Record) : Record :=
  let d1 := setField d "week" (.vnum (toNumber (getField d x)))
  setField d1 "amount" (.vnum (toNumber (getField d1 y)))

/-- `data.forEach(...)` applying the coercion: every row is kept, in
order, none dropped or zero-filled. -/
def coerceDataSLC (x y : String) (rows : List Record) : List Record :=
  rows.map (coerceRowSLC x y)

/-- The coercion loop of `multipleLineChart`: the four fixed columns
are coerced in place, in source order. -/
def coerceRowMLC (d : Record) : Record :=
  let d1 := setField d "week" (.vnum (toNumber (getField d "week")))
  let d2 := setField d1 "amount1" (.vnum (toNumber (getField d1 "amount1")))
  let d3 := setField d2 "amount2" (.vnum (toNumber (getField d2 "amount2")))
  setField d3 "amount3" (.vnum (toNumber (getField d3 "amount3")))

/-- `multipleLineChart`'s `data.forEach` coercion over all rows. -/
def coerceDataMLC (rows : List Record) : List Record :=
  rows.map coerceRowMLC

/-- The pie value accessor of `simplePieChart`:
`d3.pie().value(d => d.amount)` reads the coerced `amount` field of
each typed record, in record order. -/
def pieValues (data : List Record) : List JSNum :=
  data.map (fun d => toNumber (getField d "amount"))

/-- Modelled from the spec: the arc/pie generator contract (§4.4) —
"computes for each an angular span proportional to `value /
sum(values)`, assigns spans in sequence order starting at angle 0".
Angles are fractions of the full turn (multiply by 2π for radians);
`a` is the running start angle, `total` the sum of all values. -/
def pieSlicesFrom (total : ℚ) : ℚ → List ℚ → List (ℚ × ℚ)
  | _, [] => []
  | a, v :: vs => (a, a + v / total) :: pieSlicesFrom total (a + v / total) vs

/-- The pie layout: one (startAngle, endAngle) pair per value, in input
order, starting at angle 0, angles as fractions of the full turn. -/
def pieSlices (values : List ℚ) : List (ℚ × ℚ) :=
  pieSlicesFrom values.sum 0 values

/-- Modelled from the spec: the aggregated multi-column pie chart's
source file is absent from the repository snapshot; per §4.5 it "sums
each of several numeric columns across all rows into one slice per
column (not per row)".  Column sums use JavaScript addition (NaN
absorbing) over the unary-plus coercion of each row's cell. -/
def aggregateColumns (cols : List String) (rows : List Record) : List (String × JSNum) :=
  cols.map (fun c =>
    (c, rows.foldl (fun acc d => acc.add (toNumber (getField d c))) (.num 0)))

/-- The list of values a chart reads from a column: `data.map(d => d[k])`.
Both scale constructions and the line generator read fields this way. -/
def fieldReads (data : List Record) (k : String) : List (Option JSVal) :=
  data.map (fun d => getField d k)

/-- A value is considered by d3's extent/max folds iff it is neither
`undefined`-like nor NaN (`value >= value` holds); raw strings pass. -/
def extentValid : JSVal → Bool
  | .vstr _ => true
  | .vnum (.num _) => true
  | .vnum .nan => false

/-- JavaScript relational `<` as used by d3's comparisons: two strings
compare lexicographically, otherwise both sides coerce to number (false
when either is NaN). -/
def jsLt (a b : JSVal) : Bool :=
  match a, b with
  | .vstr s, .vstr t => decide (s < t)
  | _, _ =>
      match toNumber (some a), toNumber (some b) with
      | .num p, .num q => decide (p < q)
      | _, _ => false

/-- One step of d3.extent's fold: skip `undefined` and invalid values,
otherwise update the running (min, max) pair. -/
def extentStep (acc : Option (JSVal × JSVal)) (v? : Option JSVal) :
    Option (JSVal × JSVal) :=
  match v? with
  | none => acc
  | some v =>
      if extentValid v then
        match acc with
        | none => some (v, v)
        | some (mn, mx) =>
            some (if jsLt v mn then v else mn, if jsLt mx v then v else mx)
      else acc

/-- Modelled from the spec: `d3.extent` — the minimum and maximum of
the observed values (§4.3 policy (a)), skipping invalid entries;
`none` when no valid value was observed. -/
def d3extentV (l : List (Option JSVal)) : Option (JSVal × JSVal) :=
  l.foldl extentStep none

/-- One step of d3.max's fold. -/
def maxStep (acc : Option JSVal) (v? : Option JSVal) : Option JSVal :=
  match v? with
  | none => acc
  | some v =>
      if extentValid v then
        match acc with
        | none => some v
        | some m => some (if jsLt m v then v else m)
      else acc

/-- Modelled from the spec: `d3.max` — the maximum observed value
(§4.3 policy (b)), skipping invalid entries. -/
def d3maxV (l : List (Option JSVal)) : Option JSVal :=
  l.foldl maxStep none

/-- Modelled from the spec: `d3.max` over already-numeric values
(used by `multipleLineChart`'s magnitude scale), skipping NaN. -/
def d3maxN (l : List JSNum) : Option ℚ :=
  l.foldl
    (fun acc n =>
      match n with
      | .nan => acc
      | .num q => some (match acc with | none => q | some m => max m q))
    none

/-- Modelled from the spec (§4.3, glossary): a `d3.scaleLinear` — a
linear mapping from a data domain `[d0, d1]` to a pixel range
`[r0, r1]`. -/
structure LinearScale where
  d0 : ℚ
  d1 : ℚ
  r0 : ℚ
  r1 : ℚ
deriving DecidableEq, Repr

/-- Apply the linear scale: affine interpolation of the domain onto
the range. -/
def LinearScale.apply (s : LinearScale) (v : ℚ) : ℚ :=
  s.r0 + (v - s.d0) * (s.r1 - s.r0) / (s.d1 - s.d0)

/-- Build a scale from extent endpoints: d3 coerces the domain values
to numbers; a NaN domain (which d3 would propagate into every output)
is collapsed to `none`. -/
def scaleFromDomain (dv0 dv1 : JSVal) (r0 r1 : ℚ) : Option LinearScale :=
  match toNumber (some dv0), toNumber (some dv1) with
  | .num a, .num b => some ⟨a, b, r0, r1⟩
  | _, _ => none

/-- `simpleLineChart`'s x scale:
`.domain(d3.extent(data, d => d[xAxisLabel])).range([0, width])`. -/
def slcXScale (data : List Record) (x : String) (width : ℚ) :
    Option LinearScale :=
  match d3extentV (fieldReads data x) with
  | some (mn, mx) => scaleFromDomain mn mx 0 width
  | none => none

/-- `simpleLineChart`'s y scale:
`.domain([0, d3.max(data, d => d[yAxisLabel])]).range([height, 0])`. -/
def slcYScale (data : List Record) (y : String) (height : ℚ) :
    Option LinearScale :=
  match d3maxV (fieldReads data y) with
  | some mx => scaleFromDomain (.vnum (.num 0)) mx height 0
  | none => none

/-- `multipleLineChart`'s x scale is the same construction as
`simpleLineChart`'s, reading the fixed `week` column:
`.domain(d3.extent(data, d => d.week)).range([0, width])`. -/
def mlcXScale (typed : List Record) (width : ℚ) : Option LinearScale :=
  slcXScale typed "week" width

/-- The per-row candidates of `multipleLineChart`'s y domain:
`Math.max(d.amount1, d.amount2, d.amount3)` (NaN absorbing). -/
def mlcYCandidates (typed : List Record) : List JSNum :=
  typed.map (fun d =>
    ((toNumber (getField d "amount1")).jmax
        (toNumber (getField d "amount2"))).jmax
      (toNumber (getField d "amount3")))

/-- `multipleLineChart`'s y scale:
`.domain([0, d3.max(data, d => Math.max(...))]).range([height, 0])`. -/
def mlcYScale (typed : List Record) (height : ℚ) : Option LinearScale :=
  (d3maxN (mlcYCandidates typed)).map (fun mx => ⟨0, mx, height, 0⟩)

/-- The checked state of the three series checkboxes. -/
structure CheckboxState where
  cb1 : Bool
  cb2 : Bool
  cb3 : Bool
deriving DecidableEq, Repr

/-- The three line series of `multipleLineChart`. -/
inductive SeriesKey where
  | a1
  | a2
  | a3
deriving DecidableEq, Repr

/-- The column name of a series. -/
def SeriesKey.field : SeriesKey → String
  | .a1 => "amount1"
  | .a2 => "amount2"
  | .a3 => "amount3"

/-- Whether a series' checkbox is currently checked
(`document.getElementById('checkbox-amountN').checked`). -/
def checked (c : CheckboxState) : SeriesKey → Bool
  | .a1 => c.cb1
  | .a2 => c.cb2
  | .a3 => c.cb3

/-- Set one series' checkbox to unchecked. -/
def uncheck (c : CheckboxState) : SeriesKey → CheckboxState
  | .a1 => { c with cb1 := false }
  | .a2 => { c with cb2 := false }
  | .a3 => { c with cb3 := false }

/-- One `<path>` element of the multi-line chart: its display state
and its `d` attribute (`none` before the first visible render). -/
structure LineEl where
  display : Bool
  dAttr : Option (List (JSNum × JSNum))
deriving DecidableEq, Repr

/-- The `amountLines` object: the three path elements. -/
structure MLCLines where
  amount1 : LineEl
  amount2 : LineEl
  amount3 : LineEl
deriving DecidableEq, Repr

/-- Select a series' path element. -/
def getLine (s : MLCLines) : SeriesKey → LineEl
  | .a1 => s.amount1
  | .a2 => s.amount2
  | .a3 => s.amount3

/-- Apply a (possibly absent) scale to a (possibly NaN) value: a NaN
input or a degenerate scale yields NaN coordinates. -/
def applyO (sc : Option LinearScale) (v : JSNum) : JSNum :=
  match sc, v with
  | some s, .num q => .num (s.apply q)
  | _, _ => .nan

/-- The path data of one series:
`.datum(data.map(d => ({week: d.week, value: d[key]}))).attr('d', line)`
with `line = d3.line().x(d => x(d.week)).y(d => y(d.value))`. -/
def mlcPathPoints (typed : List Record) (xs ys : Option LinearScale)
    (key : String) : List (JSNum × JSNum) :=
  typed.map (fun d =>
    (applyO xs (toNumber (getField d "week")),
     applyO ys (toNumber (getField d key))))

/-- `updateLines`: recompute from scratch which lines are selected from
the current checkbox state, set every line's display accordingly, and
re-assign the datum and `d` attribute of each selected line; hidden
lines keep their last `d` attribute.  No other state is consulted. -/
def updateLines (typed : List Record) (xs ys : Option LinearScale)
    (c : CheckboxState) (s : MLCLines) : MLCLines :=
  let upd := fun (k : SeriesKey) (el : LineEl) =>
    if checked c k then
      { display := true, dAttr := some (mlcPathPoints typed xs ys k.field) }
    else
      { el with display := false }
  ⟨upd .a1 s.amount1, upd .a2 s.amount2, upd .a3 s.amount3⟩

/-- The fixed checkbox element identifiers hard-coded in
`multipleLineChart`; they come from string literals in its body, not
from any parameter. -/
def mlcCheckboxIds : List String :=
  ["checkbox-amount1", "checkbox-amount2", "checkbox-amount3"]

/-- `document.getElementById(i).checked` against the host page,
modelled as an association of element id to checked state; `none`
models a missing element (a JavaScript null dereference). -/
def getCheckbox : List (String × Bool) → String → Option Bool
  | [], _ => none
  | (i2, b) :: rest, i1 => if i2 = i1 then some b else getCheckbox rest i1

/-- The reads the initial `updateLines()` call performs: the three
fixed ids' checked states, in source order; a missing element throws. -/
def readCheckboxes (page : List (String × Bool)) :
    Except String CheckboxState :=
  match getCheckbox page "checkbox-amount1",
      getCheckbox page "checkbox-amount2",
      getCheckbox page "checkbox-amount3" with
  | some b1, some b2, some b3 => .ok ⟨b1, b2, b3⟩
  | _, _, _ => .error "TypeError: cannot read checked of null"

/-- The listener attachment after the initial render: a `change`
listener is added to each of the three fixed ids; returns the ids
listened to, or throws on a missing element. -/
def mlcAttachListeners (page : List (String × Bool)) :
    Except String (List String) :=
  if mlcCheckboxIds.all (fun i => (getCheckbox page i).isSome) then
    .ok mlcCheckboxIds
  else
    .error "TypeError: cannot call addEventListener of null"

/-- The post-fetch checkbox setup of `multipleLineChart`: the initial
`updateLines()` call reads the three checkboxes, then a change
listener is attached to each. -/
def mlcSetup (page : List (String × Bool)) :
    Except String (CheckboxState × List String) := do
  let c ← readCheckboxes page
  let ids ← mlcAttachListeners page
  return (c, ids)

/-- A flattened item of rendered DOM content; the SVG subtree a chart
appends is inlined into its mount point's child list. -/
inductive RenderedItem where
  | svgSkeleton
  | linePath (pts : List (JSNum × JSNum))
  | xAxis
  | yAxis
  | pieArc (startA endA : ℚ)
  | sliceLabel (week amount : JSNum)
  | legendDiv (week amount : JSNum)
deriving DecidableEq, Repr

/-- The outcome of one render call on its mount point: the mount's
appended children, the console log lines, whether an exception escaped
to the caller, and how many fetch attempts were made. -/
structure RenderOutcome where
  mount : List RenderedItem
  logs : List String
  crashed : Bool
  fetchAttempts : ℕ
deriving DecidableEq, Repr

/-- The catch handler shared by all chart functions:
`console.error('Error loading or parsing data:', error)`. -/
def errorLogLine (e : String) : String :=
  "Error loading or parsing data: " ++ e

/-- The single-series line path: `d3.line().x(d =>
xScale(d[xAxisLabel])).y(d => yScale(d[yAxisLabel]))` over the typed
data (the scale coerces its input to number). -/
def slcPathPoints (typed : List Record) (x y : String) (width height : ℚ) :
    List (JSNum × JSNum) :=
  typed.map (fun d =>
    (applyO (slcXScale typed x width) (toNumber (getField d x)),
     applyO (slcYScale typed y height) (toNumber (getField d y))))

/-- `simpleLineChart` as a whole: the svg skeleton is appended to the
mount point before the fetch; a fetch failure is caught and logged
once, with nothing further appended; on success the coerced data is
bound and the path (plus the optional axes) is appended. -/
def runSimpleLineChart (fetch : Except String (List Record))
    (x y : String) (width height : ℚ)
    (displayXAxisPlotting displayYAxisPlotting : Bool) : RenderOutcome :=
  match fetch with
  | .error e =>
      { mount := [.svgSkeleton], logs := [errorLogLine e],
        crashed := false, fetchAttempts := 1 }
  | .ok rows =>
      let typed := coerceDataSLC x y rows
      { mount := [.svgSkeleton, .linePath (slcPathPoints typed x y width height)]
          ++ (if displayXAxisPlotting then [.xAxis] else [])
          ++ (if displayYAxisPlotting then [.yAxis] else []),
        logs := [], crashed := false, fetchAttempts := 1 }

/-- `multipleLineChart` as a whole: svg appended before the fetch; a
fetch failure is caught and logged once; on success the axes, the
three paths (initial `updateLines()` with all lines fresh), and the
change listeners; a missing checkbox element throws inside the `then`
callback, which the same trailing catch logs once. -/
def runMultipleLineChart (fetch : Except String (List Record))
    (page : List (String × Bool)) (width height : ℚ) : RenderOutcome :=
  match fetch with
  | .error e =>
      { mount := [.svgSkeleton], logs := [errorLogLine e],
        crashed := false, fetchAttempts := 1 }
  | .ok rows =>
      let typed := coerceDataMLC rows
      match mlcSetup page with
      | .error e =>
          { mount := [.svgSkeleton, .xAxis, .yAxis],
            logs := [errorLogLine e], crashed := false, fetchAttempts := 1 }
      | .ok (c, _) =>
          let s := updateLines typed (mlcXScale typed width)
            (mlcYScale typed height) c
            ⟨⟨true, none⟩, ⟨true, none⟩, ⟨true, none⟩⟩
          { mount := [.svgSkeleton, .xAxis, .yAxis,
              .linePath ((getLine s .a1).dAttr.getD []),
              .linePath ((getLine s .a2).dAttr.getD []),
              .linePath ((getLine s .a3).dAttr.getD [])],
            logs := [], crashed := false, fetchAttempts := 1 }

/-- The host page: element selector ↦ child items. -/
structure PageState where
  elems : List (String × List RenderedItem)
deriving DecidableEq, Repr

/-- Look up an element's children by selector. -/
def lookupElems : List (String × List RenderedItem) → String →
    Option (List RenderedItem)
  | [], _ => none
  | (s, cs) :: rest, sel => if s = sel then some cs else lookupElems rest sel

/-- The children of the element matching a selector (empty when no
element matches). -/
def childrenOf (p : PageState) (sel : String) : List RenderedItem :=
  (lookupElems p.elems sel).getD []

/-- Whether the page has an element matching the selector. -/
def hasElem (p : PageState) (sel : String) : Bool :=
  (lookupElems p.elems sel).isSome

/-- Append one child to the element matching `sel`, leaving every
other element alone; `d3.select` of a selector with no match yields an
empty selection, whose append is a no-op. -/
def appendChildElems :
    List (String × List RenderedItem) → String → RenderedItem →
      List (String × List RenderedItem)
  | [], _, _ => []
  | (s, cs) :: rest, sel, it =>
      if s = sel then (s, cs ++ [it]) :: rest
      else (s, cs) :: appendChildElems rest sel it

/-- `d3.select(sel).append(...)` as a page transformer. -/
def appendChild (p : PageState) (sel : String) (it : RenderedItem) :
    PageState :=
  ⟨appendChildElems p.elems sel it⟩

/-- The legend entry appended per record:
`legend.append("div").style("color", color(d.week))
  .text(`Week ${d.week}: ${d.amount}`)`. -/
def legendEntry (d : Record) : RenderedItem :=
  .legendDiv (toNumber (getField d "week")) (toNumber (getField d "amount"))

/-- The fixed legend target of `simplePieChart`:
`d3.select(".legend")`, a global selector independent of the
`chartLocation` parameter. -/
def legendSelector : String := ".legend"

/-- Extract the rationals when every value is numeric (`none` when any
NaN is present). -/
def allNums : List JSNum → Option (List ℚ)
  | [] => some []
  | .num q :: rest => (allNums rest).map (fun qs => q :: qs)
  | .nan :: _ => none

/-- The arc paths of the pie: with any NaN value d3's arc path text is
not well-formed, so no arc item is produced. -/
def pieArcsOf (vals : List JSNum) : List RenderedItem :=
  match allNums vals with
  | some qs => (pieSlices qs).map (fun p => RenderedItem.pieArc p.1 p.2)
  | none => []

/-- The items `simplePieChart` appends inside its svg on a successful
fetch (flattened): the arc paths and one label per record. -/
def pieMountItems (typed : List Record) : List RenderedItem :=
  pieArcsOf (pieValues typed)
    ++ typed.map (fun d =>
        RenderedItem.sliceLabel (toNumber (getField d "week"))
          (toNumber (getField d "amount")))

/-- `simplePieChart` as a page transformer (page after the call, and
the console log lines): svg appended to the mount before the fetch; a
fetch failure is caught and logged once; on success arcs and labels
are appended to the mount and one legend div per record is appended to
the global `.legend` element. -/
def runSimplePieChart (fetch : Except String (List Record))
    (x y chartLocation : String) (p : PageState) :
    PageState × List String :=
  let p1 := appendChild p chartLocation .svgSkeleton
  match fetch with
  | .error e => (p1, [errorLogLine e])
  | .ok rows =>
      let typed := coerceDataSLC x y rows
      let p2 := (pieMountItems typed).foldl
        (fun acc it => appendChild acc chartLocation it) p1
      let p3 := typed.foldl
        (fun acc d => appendChild acc legendSelector (legendEntry d)) p2
      (p3, [])

/- ### Helper lemmas about the pie layout -/

theorem pieSlicesFrom_length (total : ℚ) (vs : List ℚ) (a : ℚ) :
    (pieSlicesFrom total a vs).length = vs.length := by
  induction vs generalizing a with
  | nil => simp [pieSlicesFrom]
  | cons v vs ih => simp [pieSlicesFrom, ih]

theorem pieSlicesFrom_spans (total : ℚ) (vs : List ℚ) (a : ℚ) :
    (pieSlicesFrom total a vs).map (fun p => p.2 - p.1) = vs.map (· / total) := by
  induction vs generalizing a with
  | nil => simp [pieSlicesFrom]
  | cons v vs ih => simp [pieSlicesFrom, ih]

theorem sum_map_div (vs : List ℚ) (t : ℚ) :
    (vs.map (· / t)).sum = vs.sum / t := by
  induction vs with
  | nil => simp
  | cons v vs ih => simp [ih, add_div]

theorem sum_spans_mul_real (l : List (ℚ × ℚ)) (c : ℝ) :
    (l.map (fun p => ((p.2 - p.1 : ℚ) : ℝ) * c)).sum
      = (((l.map (fun p => p.2 - p.1)).sum : ℚ) : ℝ) * c := by
  induction l with
  | nil => simp
  | cons p l ih =>
      rw [List.map_cons, List.sum_cons, ih, List.map_cons, List.sum_cons]
      push_cast
      ring

theorem pieSlicesFrom_get (total : ℚ) :
    ∀ (vs : List ℚ) (a : ℚ) (i : ℕ) (h : i < (pieSlicesFrom total a vs).length),
      (pieSlicesFrom total a vs).get ⟨i, h⟩ =
        (a + (vs.take i).sum / total, a + (vs.take (i + 1)).sum / total)
  | [], _, _, h => absurd h (by simp [pieSlicesFrom])
  | v :: vs, a, 0, h => by
      simp [pieSlicesFrom]
  | v :: vs, a, i + 1, h => by
      have ih := pieSlicesFrom_get total vs (a + v / total) i
        (by simpa [pieSlicesFrom] using h)
      simp only [pieSlicesFrom, List.get] at ih ⊢
      rw [ih, Prod.ext_iff]
      refine ⟨?_, ?_⟩ <;>
        · simp only [List.take_succ_cons, List.sum_cons, add_div]
          ring

/- ### Claim theorems: pie layout -/

/-- C1.  For every dataset whose pie values (read by `simplePieChart`'s
value accessor) are non-negative rationals with positive total, the
slice angles — each span is its turn-fraction times 2π radians — sum to
exactly 2π: the slices partition the full circle once per render. -/
theorem simplePieChart_angles_sum_full_turn
    (typed : List Record) (qs : List ℚ)
    (hvals : pieValues typed = qs.map JSNum.num)
    (hnn : ∀ v ∈ qs, 0 ≤ v) (hpos : 0 < qs.sum) :
    ((pieSlices qs).map (fun p => ((p.2 - p.1 : ℚ) : ℝ) * (2 * Real.pi))).sum
      = 2 * Real.pi := by
  have hspans : (pieSlices qs).map (fun p => p.2 - p.1) = qs.map (· / qs.sum) :=
    pieSlicesFrom_spans qs.sum qs 0
  rw [sum_spans_mul_real, hspans, sum_map_div, div_self (ne_of_gt hpos)]
  norm_num

/-- Witness for C1 at the concrete typed dataset with amounts 10 and 30. -/
theorem simplePieChart_angles_sum_full_turn_witness :
    ((pieSlices [(10 : ℚ), 30]).map
        (fun p => ((p.2 - p.1 : ℚ) : ℝ) * (2 * Real.pi))).sum = 2 * Real.pi :=
  simplePieChart_angles_sum_full_turn
    [[("amount", JSVal.vnum (JSNum.num 10))], [("amount", JSVal.vnum (JSNum.num 30))]]
    [10, 30] rfl (by norm_num [List.forall_mem_cons])
    (by norm_num [List.sum_cons, List.sum_nil])

/-- C2.  For every sequence of non-negative values with positive total
given to the pie generator, slice `i` spans exactly the fraction
`values[i] / sum` of the turn, slices are laid out in input-sequence
order (slice `i` runs from the prefix-sum through `i-1` to the
prefix-sum through `i`), and the first slice starts at angle 0. -/
theorem simplePieChart_slices_sequential
    (qs : List ℚ) (hnn : ∀ v ∈ qs, 0 ≤ v) (hpos : 0 < qs.sum) :
    (pieSlices qs).length = qs.length ∧
    ∀ i (h : i < (pieSlices qs).length),
      (pieSlices qs).get ⟨i, h⟩ =
        ((qs.take i).sum / qs.sum, (qs.take (i + 1)).sum / qs.sum) := by
  refine ⟨pieSlicesFrom_length _ _ _, fun i h => ?_⟩
  have := pieSlicesFrom_get qs.sum qs 0 i h
  simpa [pieSlices] using this

/-- Witness for C2: with values 10 and 30 the second slice runs from
the quarter turn to the full turn. -/
theorem simplePieChart_slices_sequential_witness :
    (pieSlices [(10 : ℚ), 30]).get ⟨1, by decide⟩ = (1 / 4, 1) := by
  have h := simplePieChart_slices_sequential [10, 30]
    (by norm_num [List.forall_mem_cons]) (by norm_num [List.sum_cons, List.sum_nil])
  have h2 := h.2 1 (by decide)
  refine h2.trans ?_
  norm_num [Prod.ext_iff, List.take_succ_cons, List.take_zero,
    List.sum_cons, List.sum_nil]

/-- C7.  The aggregated multi-column pie variant sums each column into
one slice per column: on columns `a,b` with rows `(a=1,b=3),(a=2,b=1)`
it yields values `a=3, b=4`, whose slices span 3/7 and 4/7 of the full
turn. -/
theorem aggregatedPie_column_sums :
    aggregateColumns ["a", "b"]
        [[("a", JSVal.vstr "1"), ("b", JSVal.vstr "3")],
         [("a", JSVal.vstr "2"), ("b", JSVal.vstr "1")]]
      = [("a", JSNum.num 3), ("b", JSNum.num 4)] ∧
    (pieSlices [(3 : ℚ), 4]).map (fun p => p.2 - p.1) = [3 / 7, 4 / 7] := by
  constructor
  · have ha : aggregateColumns ["a", "b"]
        [[("a", JSVal.vstr "1"), ("b", JSVal.vstr "3")],
         [("a", JSVal.vstr "2"), ("b", JSVal.vstr "1")]]
      = [("a", JSNum.num ((0 + 1) + 2)), ("b", JSNum.num ((0 + 3) + 1))] := rfl
    rw [ha]
    norm_num
  · simp only [pieSlices, pieSlicesFrom, List.sum_cons, List.sum_nil]
    norm_num

/- ### Helper lemmas about records and field update -/

theorem getField_setField_self (d : Record) (k : String) (v : JSVal) :
    getField (setField d k v) k = some v := by
  induction d with
  | nil => simp [setField, getField]
  | cons p d ih =>
      obtain ⟨k', v'⟩ := p
      by_cases h : k' = k
      · simp [setField, getField, h]
      · simp [setField, getField, h, ih]

theorem getField_setField_ne (d : Record) (k k2 : String) (v : JSVal)
    (h : k2 ≠ k) : getField (setField d k v) k2 = getField d k2 := by
  induction d with
  | nil =>
      simp only [setField, getField]
      rw [if_neg (fun hh => h hh.symm)]
  | cons p d ih =>
      obtain ⟨k', v'⟩ := p
      by_cases hk : k' = k
      · subst hk
        simp [setField, getField, Ne.symm h]
      · simp [setField, getField, hk, ih]

theorem coerceRowSLC_week (d : Record) (x y : String) :
    getField (coerceRowSLC x y d) "week"
      = some (.vnum (toNumber (getField d x))) := by
  simp [coerceRowSLC, getField_setField_self, getField_setField_ne]

theorem coerceRowSLC_amount (d : Record) (x y : String) (hy : y ≠ "week") :
    getField (coerceRowSLC x y d) "amount"
      = some (.vnum (toNumber (getField d y))) := by
  simp [coerceRowSLC, getField_setField_self, getField_setField_ne, hy]

theorem coerceRowSLC_other (d : Record) (x y k : String)
    (hk1 : k ≠ "week") (hk2 : k ≠ "amount") :
    getField (coerceRowSLC x y d) k = getField d k := by
  simp [coerceRowSLC, getField_setField_ne, hk1, hk2]

theorem coerceRowMLC_amount1 (d : Record) :
    getField (coerceRowMLC d) "amount1"
      = some (.vnum (toNumber (getField d "amount1"))) := by
  simp [coerceRowMLC, getField_setField_self, getField_setField_ne]

theorem JSNum.nan_jmax (b : JSNum) : JSNum.jmax .nan b = .nan := by
  cases b <;> rfl

theorem toNumber_vnum (n : JSNum) : toNumber (some (.vnum n)) = n := rfl

/- ### Helper lemmas about folds computing minima and maxima -/

theorem foldl_min_le_init (qs : List ℚ) (a : ℚ) : qs.foldl min a ≤ a := by
  induction qs generalizing a with
  | nil => simp
  | cons q qs ih =>
      simp only [List.foldl_cons]
      exact le_trans (ih (min a q)) (min_le_left a q)

theorem foldl_min_le_mem (qs : List ℚ) (a : ℚ) :
    ∀ q ∈ qs, qs.foldl min a ≤ q := by
  induction qs generalizing a with
  | nil => intro q hq; exact absurd hq (List.not_mem_nil q)
  | cons p qs ih =>
      intro q hq
      simp only [List.foldl_cons]
      rcases List.mem_cons.mp hq with rfl | hq
      · exact le_trans (foldl_min_le_init qs (min a q)) (min_le_right a q)
      · exact ih (min a p) q hq

theorem foldl_min_mem (qs : List ℚ) (a : ℚ) :
    qs.foldl min a = a ∨ qs.foldl min a ∈ qs := by
  induction qs generalizing a with
  | nil => left; rfl
  | cons p qs ih =>
      simp only [List.foldl_cons]
      rcases ih (min a p) with h | h
      · rcases min_choice a p with hm | hm
        · left; rw [h, hm]
        · right; rw [h, hm]; exact List.mem_cons_self p qs
      · right; exact List.mem_cons_of_mem p h

theorem foldl_le_max_init (qs : List ℚ) (a : ℚ) : a ≤ qs.foldl max a := by
  induction qs generalizing a with
  | nil => simp
  | cons q qs ih =>
      simp only [List.foldl_cons]
      exact le_trans (le_max_left a q) (ih (max a q))

theorem foldl_mem_le_max (qs : List ℚ) (a : ℚ) :
    ∀ q ∈ qs, q ≤ qs.foldl max a := by
  induction qs generalizing a with
  | nil => intro q hq; exact absurd hq (List.not_mem_nil q)
  | cons p qs ih =>
      intro q hq
      simp only [List.foldl_cons]
      rcases List.mem_cons.mp hq with rfl | hq
      · exact le_trans (le_max_right a q) (foldl_le_max_init qs (max a q))
      · exact ih (max a p) q hq

theorem foldl_max_mem (qs : List ℚ) (a : ℚ) :
    qs.foldl max a = a ∨ qs.foldl max a ∈ qs := by
  induction qs generalizing a with
  | nil => left; rfl
  | cons p qs ih =>
      simp only [List.foldl_cons]
      rcases ih (max a p) with h | h
      · rcases max_choice a p with hm | hm
        · left; rw [h, hm]
        · right; rw [h, hm]; exact List.mem_cons_self p qs
      · right; exact List.mem_cons_of_mem p h

/- ### Helper lemmas: extent and max folds on numeric observations -/

theorem extentStep_num (a b q : ℚ) :
    extentStep (some (.vnum (.num a), .vnum (.num b))) (some (.vnum (.num q)))
      = some (.vnum (.num (min a q)), .vnum (.num (max b q))) := by
  simp only [extentStep, extentValid, jsLt, toNumber, if_true]
  simp only [Prod.mk.injEq, Option.some.injEq]
  constructor
  · split_ifs with h
    · simp at h
      rw [min_eq_right (le_of_lt h)]
    · simp at h
      rw [min_eq_left h]
  · split_ifs with h
    · simp at h
      rw [max_eq_right (le_of_lt h)]
    · simp at h
      rw [max_eq_left h]

theorem extent_foldl_nums (qs : List ℚ) (a b : ℚ) :
    List.foldl extentStep (some (.vnum (.num a), .vnum (.num b)))
        (qs.map (fun q => some (JSVal.vnum (JSNum.num q))))
      = some (.vnum (.num (qs.foldl min a)), .vnum (.num (qs.foldl max b))) := by
  induction qs generalizing a b with
  | nil => simp
  | cons q qs ih =>
      simp only [List.map_cons, List.foldl_cons, extentStep_num]
      exact ih (min a q) (max b q)

theorem d3extentV_nums (q : ℚ) (qs : List ℚ) :
    d3extentV ((q :: qs).map (fun q => some (JSVal.vnum (JSNum.num q))))
      = some (.vnum (.num (qs.foldl min q)), .vnum (.num (qs.foldl max q))) := by
  simp only [d3extentV, List.map_cons, List.foldl_cons]
  rw [show extentStep none (some (.vnum (.num q)))
      = some (.vnum (.num q), .vnum (.num q)) from rfl]
  exact extent_foldl_nums qs q q

theorem maxStep_num (b q : ℚ) :
    maxStep (some (.vnum (.num b))) (some (.vnum (.num q)))
      = some (.vnum (.num (max b q))) := by
  simp only [maxStep, extentValid, jsLt, toNumber, if_true, Option.some.injEq]
  split_ifs with h
  · simp at h
    rw [max_eq_right (le_of_lt h)]
  · simp at h
    rw [max_eq_left h]

theorem max_foldl_nums (qs : List ℚ) (b : ℚ) :
    List.foldl maxStep (some (.vnum (.num b)))
        (qs.map (fun q => some (JSVal.vnum (JSNum.num q))))
      = some (.vnum (.num (qs.foldl max b))) := by
  induction qs generalizing b with
  | nil => simp
  | cons q qs ih =>
      simp only [List.map_cons, List.foldl_cons, maxStep_num]
      exact ih (max b q)

theorem d3maxV_nums (q : ℚ) (qs : List ℚ) :
    d3maxV ((q :: qs).map (fun q => some (JSVal.vnum (JSNum.num q))))
      = some (.vnum (.num (qs.foldl max q))) := by
  simp only [d3maxV, List.map_cons, List.foldl_cons]
  rw [show maxStep none (some (.vnum (.num q)))
      = some (.vnum (.num q)) from rfl]
  exact max_foldl_nums qs q

theorem d3maxN_foldl (qs : List ℚ) (b : ℚ) :
    List.foldl
        (fun acc n =>
          match n with
          | JSNum.nan => acc
          | JSNum.num q => some (match acc with | none => q | some m => max m q))
        (some b) (qs.map JSNum.num)
      = some (qs.foldl max b) := by
  induction qs generalizing b with
  | nil => simp
  | cons q qs ih =>
      simp only [List.map_cons, List.foldl_cons]
      exact ih (max b q)

theorem d3maxN_nums (q : ℚ) (qs : List ℚ) :
    d3maxN ((q :: qs).map JSNum.num) = some (qs.foldl max q) := by
  simp only [d3maxN, List.map_cons, List.foldl_cons]
  exact d3maxN_foldl qs q

/- ### Helper lemmas: the linear scale mapping -/

theorem LinearScale.apply_d0 (s : LinearScale) : s.apply s.d0 = s.r0 := by
  simp [LinearScale.apply]

theorem LinearScale.apply_d1 (s : LinearScale) (h : s.d0 ≠ s.d1) :
    s.apply s.d1 = s.r1 := by
  have h' : s.d1 - s.d0 ≠ 0 := sub_ne_zero.mpr (Ne.symm h)
  field_simp [LinearScale.apply]

/- ### Claim theorem: scale domain policies (C3) -/

/-- C3.  For every non-empty dataset whose read fields are numeric (and
non-degenerate: distinct key values, nonzero maximum magnitude), the
line-chart scales of both variants satisfy both domain policies: the x
scale's domain is the [min, max] of the observed key values and maps
the minimum to pixel 0 and the maximum to pixel `width`; the y scale's
domain is [0, max] and maps the maximum to pixel 0 and the value 0 to
pixel `height`. -/
theorem lineChart_scale_domain_policies
    (typedS typedM : List Record) (x y : String) (width height : ℚ)
    (xq yq wq mq : ℚ) (xqs yqs wqs mqs : List ℚ)
    (hx : fieldReads typedS x
      = (xq :: xqs).map (fun q => some (JSVal.vnum (JSNum.num q))))
    (hy : fieldReads typedS y
      = (yq :: yqs).map (fun q => some (JSVal.vnum (JSNum.num q))))
    (hw : fieldReads typedM "week"
      = (wq :: wqs).map (fun q => some (JSVal.vnum (JSNum.num q))))
    (hm : mlcYCandidates typedM = (mq :: mqs).map JSNum.num)
    (hxd : xqs.foldl min xq ≠ xqs.foldl max xq)
    (hwd : wqs.foldl min wq ≠ wqs.foldl max wq)
    (hyd : yqs.foldl max yq ≠ 0)
    (hmd : mqs.foldl max mq ≠ 0) :
    ∃ sx sy mx my,
      (slcXScale typedS x width = some sx ∧
       slcYScale typedS y height = some sy ∧
       mlcXScale typedM width = some mx ∧
       mlcYScale typedM height = some my) ∧
      ((∀ q ∈ xq :: xqs, sx.d0 ≤ q ∧ q ≤ sx.d1) ∧
       sx.d0 ∈ xq :: xqs ∧ sx.d1 ∈ xq :: xqs ∧
       sx.apply sx.d0 = 0 ∧ sx.apply sx.d1 = width) ∧
      (sy.d0 = 0 ∧ (∀ q ∈ yq :: yqs, q ≤ sy.d1) ∧ sy.d1 ∈ yq :: yqs ∧
       sy.apply sy.d1 = 0 ∧ sy.apply 0 = height) ∧
      ((∀ q ∈ wq :: wqs, mx.d0 ≤ q ∧ q ≤ mx.d1) ∧
       mx.apply mx.d0 = 0 ∧ mx.apply mx.d1 = width) ∧
      (my.d0 = 0 ∧ my.apply my.d1 = 0 ∧ my.apply 0 = height) := by
  have hsx : slcXScale typedS x width
      = some ⟨xqs.foldl min xq, xqs.foldl max xq, 0, width⟩ := by
    simp only [slcXScale, hx, d3extentV_nums, scaleFromDomain, toNumber]
  have hsy : slcYScale typedS y height
      = some ⟨0, yqs.foldl max yq, height, 0⟩ := by
    simp only [slcYScale, hy, d3maxV_nums, scaleFromDomain, toNumber]
  have hmx : mlcXScale typedM width
      = some ⟨wqs.foldl min wq, wqs.foldl max wq, 0, width⟩ := by
    simp only [mlcXScale, slcXScale, hw, d3extentV_nums, scaleFromDomain, toNumber]
  have hmy : mlcYScale typedM height
      = some ⟨0, mqs.foldl max mq, height, 0⟩ := by
    simp only [mlcYScale, hm, d3maxN_nums]
    rfl
  refine ⟨_, _, _, _, ⟨hsx, hsy, hmx, hmy⟩, ⟨?_, ?_, ?_, ?_, ?_⟩,
    ⟨rfl, ?_, ?_, ?_, ?_⟩, ⟨?_, ?_, ?_⟩, ⟨rfl, ?_, ?_⟩⟩
  · intro q hq
    rcases List.mem_cons.mp hq with rfl | hq
    · exact ⟨foldl_min_le_init xqs q, foldl_le_max_init xqs q⟩
    · exact ⟨foldl_min_le_mem xqs xq q hq, foldl_mem_le_max xqs xq q hq⟩
  · rcases foldl_min_mem xqs xq with h | h
    · rw [h]; exact List.mem_cons_self xq xqs
    · exact List.mem_cons_of_mem xq h
  · rcases foldl_max_mem xqs xq with h | h
    · rw [h]; exact List.mem_cons_self xq xqs
    · exact List.mem_cons_of_mem xq h
  · exact LinearScale.apply_d0 _
  · exact LinearScale.apply_d1 _ hxd
  · intro q hq
    rcases List.mem_cons.mp hq with rfl | hq
    · exact foldl_le_max_init yqs q
    · exact foldl_mem_le_max yqs yq q hq
  · rcases foldl_max_mem yqs yq with h | h
    · rw [h]; exact List.mem_cons_self yq yqs
    · exact List.mem_cons_of_mem yq h
  · exact LinearScale.apply_d1 _ (Ne.symm hyd)
  · exact LinearScale.apply_d0 _
  · intro q hq
    rcases List.mem_cons.mp hq with rfl | hq
    · exact ⟨foldl_min_le_init wqs q, foldl_le_max_init wqs q⟩
    · exact ⟨foldl_min_le_mem wqs wq q hq, foldl_mem_le_max wqs wq q hq⟩
  · exact LinearScale.apply_d0 _
  · exact LinearScale.apply_d1 _ hwd
  · exact LinearScale.apply_d1 _ (Ne.symm hmd)
  · exact LinearScale.apply_d0 _

/-- Witness for C3 at a concrete two-row dataset for each chart:
weeks 1 and 2, amounts 10 and 30 (single-line) and 10/20 across the
three series (multi-line), width 730, height 400. -/
theorem lineChart_scale_domain_policies_witness :
    ∃ sx sy mx my,
      (slcXScale
          [[("week", JSVal.vnum (JSNum.num 1)), ("amount", JSVal.vnum (JSNum.num 10))],
           [("week", JSVal.vnum (JSNum.num 2)), ("amount", JSVal.vnum (JSNum.num 30))]]
          "week" 730 = some sx ∧
       slcYScale
          [[("week", JSVal.vnum (JSNum.num 1)), ("amount", JSVal.vnum (JSNum.num 10))],
           [("week", JSVal.vnum (JSNum.num 2)), ("amount", JSVal.vnum (JSNum.num 30))]]
          "amount" 400 = some sy ∧
       mlcXScale
          [[("week", JSVal.vnum (JSNum.num 1)), ("amount1", JSVal.vnum (JSNum.num 10)),
            ("amount2", JSVal.vnum (JSNum.num 10)), ("amount3", JSVal.vnum (JSNum.num 10))],
           [("week", JSVal.vnum (JSNum.num 2)), ("amount1", JSVal.vnum (JSNum.num 20)),
            ("amount2", JSVal.vnum (JSNum.num 20)), ("amount3", JSVal.vnum (JSNum.num 20))]]
          730 = some mx ∧
       mlcYScale
          [[("week", JSVal.vnum (JSNum.num 1)), ("amount1", JSVal.vnum (JSNum.num 10)),
            ("amount2", JSVal.vnum (JSNum.num 10)), ("amount3", JSVal.vnum (JSNum.num 10))],
           [("week", JSVal.vnum (JSNum.num 2)), ("amount1", JSVal.vnum (JSNum.num 20)),
            ("amount2", JSVal.vnum (JSNum.num 20)), ("amount3", JSVal.vnum (JSNum.num 20))]]
          400 = some my) ∧
      sx.apply sx.d0 = 0 ∧ sx.apply sx.d1 = 730 ∧
      sy.apply sy.d1 = 0 ∧ sy.apply 0 = 400 ∧
      my.apply my.d1 = 0 ∧ my.apply 0 = 400 := by
  obtain ⟨sx, sy, mx, my, hEq, hX, hY, hW, hM⟩ :=
    lineChart_scale_domain_policies
      [[("week", JSVal.vnum (JSNum.num 1)), ("amount", JSVal.vnum (JSNum.num 10))],
       [("week", JSVal.vnum (JSNum.num 2)), ("amount", JSVal.vnum (JSNum.num 30))]]
      [[("week", JSVal.vnum (JSNum.num 1)), ("amount1", JSVal.vnum (JSNum.num 10)),
        ("amount2", JSVal.vnum (JSNum.num 10)), ("amount3", JSVal.vnum (JSNum.num 10))],
       [("week", JSVal.vnum (JSNum.num 2)), ("amount1", JSVal.vnum (JSNum.num 20)),
        ("amount2", JSVal.vnum (JSNum.num 20)), ("amount3", JSVal.vnum (JSNum.num 20))]]
      "week" "amount" 730 400
      1 10 1 (max (max 10 10) 10) [2] [30] [2] [max (max 20 20) 20]
      rfl rfl rfl rfl
      (by
        simp only [List.foldl_cons, List.foldl_nil]
        rw [min_eq_left (by norm_num : (1 : ℚ) ≤ 2),
          max_eq_right (by norm_num : (1 : ℚ) ≤ 2)]
        norm_num)
      (by
        simp only [List.foldl_cons, List.foldl_nil]
        rw [min_eq_left (by norm_num : (1 : ℚ) ≤ 2),
          max_eq_right (by norm_num : (1 : ℚ) ≤ 2)]
        norm_num)
      (by
        simp only [List.foldl_cons, List.foldl_nil]
        rw [max_eq_right (by norm_num : (10 : ℚ) ≤ 30)]
        norm_num)
      (by
        simp only [List.foldl_cons, List.foldl_nil, max_self]
        rw [max_eq_right (by norm_num : (10 : ℚ) ≤ 20)]
        norm_num)
  exact ⟨sx, sy, mx, my, hEq, hX.2.2.2.1, hX.2.2.2.2,
    hY.2.2.2.1, hY.2.2.2.2, hM.2.1, hM.2.2⟩

/- ### Claim theorems: coercion writes fixed keys (C9) -/

/-- C9 counterexample.  The claim as stated — whenever `xAxisLabel ≠
"week"` or `yAxisLabel ≠ "amount"`, the scales read the raw
(uncoerced) string values and the coerced fields are never used — is
false: with `xAxisLabel = "label"` (≠ "week") and `yAxisLabel =
"amount"`, the y read returns the coerced numeric field, not the raw
string. -/
theorem simpleLineChart_rawRead_counterexample :
    ¬ ∀ (d : Record) (x y : String),
        (x ≠ "week" ∨ y ≠ "amount") →
        fieldReads (coerceDataSLC x y [d]) x = fieldReads [d] x ∧
        fieldReads (coerceDataSLC x y [d]) y = fieldReads [d] y := by
  intro h
  have hc := (h [("label", JSVal.vstr "A"), ("amount", JSVal.vstr "5")]
      "label" "amount" (Or.inl (by decide))).2
  have hl : fieldReads (coerceDataSLC "label" "amount"
        [[("label", JSVal.vstr "A"), ("amount", JSVal.vstr "5")]]) "amount"
      = [some (JSVal.vnum (toNumber (some (JSVal.vstr "5"))))] := rfl
  have hr : fieldReads [[("label", JSVal.vstr "A"), ("amount", JSVal.vstr "5")]] "amount"
      = [some (JSVal.vstr "5")] := rfl
  rw [hl, hr] at hc
  simp at hc

/-- C9 (amended).  The coercion writes only the fixed keys `week` and
`amount`; the scales and line generator read the caller-named fields
directly (`fieldReads`); hence for any field name outside
{week, amount} the read is the raw, uncoerced value, and a coerced
numeric field is read exactly when a label equals `week` or `amount`
(the `week` key holds the coerced x field; when `yAxisLabel ≠ "week"`,
the `amount` key holds the coerced y field). -/
theorem simpleLineChart_mismatched_labels_read_raw
    (rows : List Record) (d : Record) (x y k : String)
    (hk1 : k ≠ "week") (hk2 : k ≠ "amount") :
    getField (coerceRowSLC x y d) k = getField d k ∧
    fieldReads (coerceDataSLC x y rows) k = fieldReads rows k ∧
    getField (coerceRowSLC x y d) "week"
      = some (.vnum (toNumber (getField d x))) ∧
    (y ≠ "week" → getField (coerceRowSLC x y d) "amount"
      = some (.vnum (toNumber (getField d y)))) := by
  have hrows : ∀ rs : List Record,
      fieldReads (coerceDataSLC x y rs) k = fieldReads rs k := by
    intro rs
    induction rs with
    | nil => rfl
    | cons r rs ih =>
        simp only [fieldReads, coerceDataSLC, List.map_cons] at ih ⊢
        rw [coerceRowSLC_other r x y k hk1 hk2, ih]
  exact ⟨coerceRowSLC_other d x y k hk1 hk2, hrows rows,
    coerceRowSLC_week d x y, fun hy => coerceRowSLC_amount d x y hy⟩

/-- Witness for the amended C9 at a record with a `color` field and
labels `a`, `b`, none of which are the coerced keys. -/
theorem simpleLineChart_mismatched_labels_read_raw_witness :
    getField (coerceRowSLC "a" "b" [("color", JSVal.vstr "red")]) "color"
      = getField [("color", JSVal.vstr "red")] "color" ∧
    getField (coerceRowSLC "a" "b" [("color", JSVal.vstr "red")]) "week"
      = some (.vnum (toNumber (getField [("color", JSVal.vstr "red")] "a"))) := by
  have h := simpleLineChart_mismatched_labels_read_raw
    [[("color", JSVal.vstr "red")]] [("color", JSVal.vstr "red")] "a" "b" "color"
    (by decide) (by decide)
  exact ⟨h.1, h.2.2.1⟩

/- ### Claim theorem: NaN coercion does not drop rows (C4) -/

/-- C4.  When a record's y field is missing or non-numeric, the
coercion does not throw (it is total): the `amount` field becomes the
NaN sentinel (not zero), all other fields are unchanged, the row is
kept at its position (nothing dropped), and the NaN propagates into
the downstream pie-value list and the multi-line chart's magnitude
domain candidates. -/
theorem coercion_nan_propagates
    (rows : List Record) (x y : String) (i : ℕ) (hi : i < rows.length)
    (hy : y ≠ "week")
    (hbady : toNumber (getField (rows.get ⟨i, hi⟩) y) = JSNum.nan)
    (hbad1 : toNumber (getField (rows.get ⟨i, hi⟩) "amount1") = JSNum.nan) :
    (coerceDataSLC x y rows).length = rows.length ∧
    (coerceDataSLC x y rows)[i]? = some (coerceRowSLC x y (rows.get ⟨i, hi⟩)) ∧
    getField (coerceRowSLC x y (rows.get ⟨i, hi⟩)) "amount"
      = some (.vnum JSNum.nan) ∧
    (∀ k, k ≠ "week" → k ≠ "amount" →
      getField (coerceRowSLC x y (rows.get ⟨i, hi⟩)) k
        = getField (rows.get ⟨i, hi⟩) k) ∧
    (pieValues (coerceDataSLC x y rows))[i]? = some JSNum.nan ∧
    (coerceDataMLC rows).length = rows.length ∧
    (mlcYCandidates (coerceDataMLC rows))[i]? = some JSNum.nan := by
  have hrow : rows[i]? = some (rows.get ⟨i, hi⟩) := by
    rw [List.getElem?_eq_getElem hi]
    rfl
  refine ⟨by simp [coerceDataSLC], ?_, ?_, ?_, ?_, by simp [coerceDataMLC], ?_⟩
  · simp [coerceDataSLC, List.getElem?_map, hrow]
  · rw [coerceRowSLC_amount _ _ _ hy, hbady]
  · intro k hk1 hk2
    exact coerceRowSLC_other _ x y k hk1 hk2
  · simp only [pieValues, coerceDataSLC, List.map_map]
    rw [List.getElem?_map, hrow]
    simp only [Option.map_some', Function.comp_apply]
    rw [coerceRowSLC_amount _ _ _ hy, hbady, toNumber_vnum]
  · simp only [mlcYCandidates, coerceDataMLC, List.map_map]
    rw [List.getElem?_map, hrow]
    simp only [Option.map_some', Function.comp_apply]
    rw [coerceRowMLC_amount1, hbad1, toNumber_vnum, JSNum.nan_jmax,
      JSNum.nan_jmax]

/-- Witness for C4 at a one-row dataset whose only field is a
non-numeric string and whose named y field is absent. -/
theorem coercion_nan_propagates_witness :
    getField (coerceRowSLC "u" "v" [("label", JSVal.vstr "abc")]) "amount"
      = some (.vnum JSNum.nan) ∧
    (pieValues (coerceDataSLC "u" "v" [[("label", JSVal.vstr "abc")]]))[0]?
      = some JSNum.nan ∧
    (mlcYCandidates (coerceDataMLC [[("label", JSVal.vstr "abc")]]))[0]?
      = some JSNum.nan := by
  have h := coercion_nan_propagates [[("label", JSVal.vstr "abc")]] "u" "v" 0
    (by decide) (by decide) rfl rfl
  exact ⟨h.2.2.1, h.2.2.2.2.1, h.2.2.2.2.2.2⟩

/- ### Claim theorem: checkbox toggle semantics (C5) -/

/-- C5.  In `updateLines`, each series' visibility is a pure function
of the current checkbox state (independent of any prior line state),
and for a checked series, toggling its checkbox off and then on again
yields exactly the `d` attribute rendered before the toggle — the path
of the unchanged dataset. -/
theorem updateLines_toggle_restores
    (typed : List Record) (xs ys : Option LinearScale)
    (c : CheckboxState) (s : MLCLines) (k : SeriesKey)
    (hk : checked c k = true) :
    (getLine (updateLines typed xs ys c
        (updateLines typed xs ys (uncheck c k)
          (updateLines typed xs ys c s))) k).dAttr
      = (getLine (updateLines typed xs ys c s) k).dAttr ∧
    (getLine (updateLines typed xs ys c s) k).dAttr
      = some (mlcPathPoints typed xs ys k.field) ∧
    (∀ t : MLCLines,
      (getLine (updateLines typed xs ys c t) k).display = checked c k) := by
  cases k <;>
    · simp only [checked] at hk
      simp [updateLines, getLine, uncheck, checked, hk]

/-- Witness for C5 at a concrete one-row dataset with all three
checkboxes checked, toggling series 1. -/
theorem updateLines_toggle_restores_witness :
    (getLine (updateLines [[("week", JSVal.vnum (JSNum.num 1)),
          ("amount1", JSVal.vnum (JSNum.num 2))]] none none ⟨true, true, true⟩
        (updateLines [[("week", JSVal.vnum (JSNum.num 1)),
            ("amount1", JSVal.vnum (JSNum.num 2))]] none none
          (uncheck ⟨true, true, true⟩ .a1)
          (updateLines [[("week", JSVal.vnum (JSNum.num 1)),
              ("amount1", JSVal.vnum (JSNum.num 2))]] none none
            ⟨true, true, true⟩
            ⟨⟨false, none⟩, ⟨false, none⟩, ⟨false, none⟩⟩))) .a1).dAttr
      = (getLine (updateLines [[("week", JSVal.vnum (JSNum.num 1)),
            ("amount1", JSVal.vnum (JSNum.num 2))]] none none
          ⟨true, true, true⟩
          ⟨⟨false, none⟩, ⟨false, none⟩, ⟨false, none⟩⟩) .a1).dAttr :=
  (updateLines_toggle_restores
    [[("week", JSVal.vnum (JSNum.num 1)), ("amount1", JSVal.vnum (JSNum.num 2))]]
    none none ⟨true, true, true⟩
    ⟨⟨false, none⟩, ⟨false, none⟩, ⟨false, none⟩⟩ .a1 rfl).1

/- ### Claim theorem: fixed checkbox identifiers (C8) -/

/-- C8.  `multipleLineChart` depends on exactly the three fixed
checkbox element ids; under the precondition that all three exist on
the host page, the setup succeeds: the initial update reads their
checked states and a change listener is attached to each of exactly
those ids.  The id list is a closed constant (not derived from any
chart parameter), spelled out in the second conjunct. -/
theorem multipleLineChart_checkbox_dependency
    (page : List (String × Bool))
    (h : ∀ i ∈ mlcCheckboxIds, (getCheckbox page i).isSome = true) :
    (∃ c, mlcSetup page = .ok (c, mlcCheckboxIds)) ∧
    mlcCheckboxIds
      = ["checkbox-amount1", "checkbox-amount2", "checkbox-amount3"] := by
  have h1 := h "checkbox-amount1" (by simp [mlcCheckboxIds])
  have h2 := h "checkbox-amount2" (by simp [mlcCheckboxIds])
  have h3 := h "checkbox-amount3" (by simp [mlcCheckboxIds])
  obtain ⟨b1, hb1⟩ := Option.isSome_iff_exists.mp h1
  obtain ⟨b2, hb2⟩ := Option.isSome_iff_exists.mp h2
  obtain ⟨b3, hb3⟩ := Option.isSome_iff_exists.mp h3
  refine ⟨⟨⟨b1, b2, b3⟩, ?_⟩, rfl⟩
  simp only [mlcSetup, readCheckboxes, mlcAttachListeners, mlcCheckboxIds,
    hb1, hb2, hb3, Option.isSome_some, List.all_cons, List.all_nil,
    Bool.and_true, if_true]
  rfl

/-- Witness for C8 at a concrete host page holding the three checkbox
elements. -/
theorem multipleLineChart_checkbox_dependency_witness :
    (∃ c, mlcSetup
        [("checkbox-amount1", true), ("checkbox-amount2", false),
         ("checkbox-amount3", true)]
      = .ok (c, mlcCheckboxIds)) ∧
    mlcCheckboxIds
      = ["checkbox-amount1", "checkbox-amount2", "checkbox-amount3"] :=
  multipleLineChart_checkbox_dependency
    [("checkbox-amount1", true), ("checkbox-amount2", false),
     ("checkbox-amount3", true)]
    (by decide)

/- ### Claim theorems: fetch failure handling (C6) -/

/-- C6 counterexample.  The claim as stated is false in one conjunct:
on a failed fetch the mount point is not left empty — the svg skeleton
appended before the fetch remains in it, for all three variants. -/
theorem fetchFailure_mount_not_empty_counterexample :
    (runSimpleLineChart (.error "404") "week" "amount" 730 400
        true true).mount ≠ [] ∧
    (runMultipleLineChart (.error "404") [] 730 400).mount ≠ [] ∧
    childrenOf ((runSimplePieChart (.error "404") "week" "amount" "#chart"
        ⟨[("#chart", []), (".legend", [])]⟩).1) "#chart" ≠ [] := by
  refine ⟨?_, ?_, ?_⟩ <;> decide

/-- C6 (amended).  For every chart variant and every fetch error, the
error is caught at the asynchronous fetch, logged exactly once, and
does not escape to the caller; the render call is terminal (exactly
one fetch attempt, no retry); and the variants only log, leaving the
mount point with only the empty svg skeleton appended before the
fetch — no chart content. -/
theorem fetchFailure_caught_logged_once
    (e x y loc : String) (width height : ℚ) (ax ay : Bool)
    (page : List (String × Bool)) (p : PageState) :
    runSimpleLineChart (.error e) x y width height ax ay
      = { mount := [.svgSkeleton], logs := [errorLogLine e],
          crashed := false, fetchAttempts := 1 } ∧
    runMultipleLineChart (.error e) page width height
      = { mount := [.svgSkeleton], logs := [errorLogLine e],
          crashed := false, fetchAttempts := 1 } ∧
    runSimplePieChart (.error e) x y loc p
      = (appendChild p loc .svgSkeleton, [errorLogLine e]) :=
  ⟨rfl, rfl, rfl⟩

/- ### Helper lemmas about the page model -/

theorem lookupElems_appendChildElems_self
    (es : List (String × List RenderedItem)) (sel : String)
    (it : RenderedItem) :
    lookupElems (appendChildElems es sel it) sel
      = (lookupElems es sel).map (fun cs => cs ++ [it]) := by
  induction es with
  | nil => rfl
  | cons p es ih =>
      obtain ⟨s, cs⟩ := p
      by_cases h : s = sel
      · simp [appendChildElems, lookupElems, h]
      · simp [appendChildElems, lookupElems, h, ih]

theorem lookupElems_appendChildElems_ne
    (es : List (String × List RenderedItem)) (sel sel2 : String)
    (it : RenderedItem) (h : sel2 ≠ sel) :
    lookupElems (appendChildElems es sel it) sel2
      = lookupElems es sel2 := by
  induction es with
  | nil => rfl
  | cons p es ih =>
      obtain ⟨s, cs⟩ := p
      by_cases hs : s = sel
      · subst hs
        simp [appendChildElems, lookupElems, Ne.symm h]
      · simp [appendChildElems, lookupElems, hs, ih]

theorem childrenOf_appendChild_self (p : PageState) (sel : String)
    (it : RenderedItem) (h : hasElem p sel = true) :
    childrenOf (appendChild p sel it) sel = childrenOf p sel ++ [it] := by
  obtain ⟨cs, hcs⟩ := Option.isSome_iff_exists.mp h
  simp [childrenOf, appendChild, lookupElems_appendChildElems_self, hcs]

theorem childrenOf_appendChild_ne (p : PageState) (sel sel2 : String)
    (it : RenderedItem) (h : sel2 ≠ sel) :
    childrenOf (appendChild p sel it) sel2 = childrenOf p sel2 := by
  simp [childrenOf, appendChild,
    lookupElems_appendChildElems_ne p.elems sel sel2 it h]

theorem hasElem_appendChild (p : PageState) (sel sel2 : String)
    (it : RenderedItem) :
    hasElem (appendChild p sel it) sel2 = hasElem p sel2 := by
  by_cases h : sel2 = sel
  · subst h
    cases hl : lookupElems p.elems sel2 <;>
      simp [hasElem, appendChild, lookupElems_appendChildElems_self, hl]
  · simp [hasElem, appendChild,
      lookupElems_appendChildElems_ne p.elems sel sel2 it h]

theorem childrenOf_foldl_items_self (items : List RenderedItem)
    (sel : String) (p : PageState) (h : hasElem p sel = true) :
    childrenOf (items.foldl (fun acc it => appendChild acc sel it) p) sel
      = childrenOf p sel ++ items := by
  induction items generalizing p with
  | nil => simp
  | cons it items ih =>
      simp only [List.foldl_cons]
      rw [ih (appendChild p sel it) (by rw [hasElem_appendChild]; exact h),
        childrenOf_appendChild_self p sel it h, List.append_assoc]
      rfl

theorem childrenOf_foldl_items_ne (items : List RenderedItem)
    (sel sel2 : String) (p : PageState) (h : sel2 ≠ sel) :
    childrenOf (items.foldl (fun acc it => appendChild acc sel it) p) sel2
      = childrenOf p sel2 := by
  induction items generalizing p with
  | nil => rfl
  | cons it items ih =>
      simp only [List.foldl_cons]
      rw [ih (appendChild p sel it), childrenOf_appendChild_ne p sel sel2 it h]

theorem hasElem_foldl_items (items : List RenderedItem)
    (sel sel2 : String) (p : PageState) :
    hasElem (items.foldl (fun acc it => appendChild acc sel it) p) sel2
      = hasElem p sel2 := by
  induction items generalizing p with
  | nil => rfl
  | cons it items ih =>
      simp only [List.foldl_cons]
      rw [ih (appendChild p sel it), hasElem_appendChild]

theorem childrenOf_foldl_legend_self (ds : List Record) (sel : String)
    (p : PageState) (h : hasElem p sel = true) :
    childrenOf (ds.foldl (fun acc d => appendChild acc sel (legendEntry d)) p) sel
      = childrenOf p sel ++ ds.map legendEntry := by
  induction ds generalizing p with
  | nil => simp
  | cons d ds ih =>
      simp only [List.foldl_cons, List.map_cons]
      rw [ih (appendChild p sel (legendEntry d))
          (by rw [hasElem_appendChild]; exact h),
        childrenOf_appendChild_self p sel (legendEntry d) h,
        List.append_assoc]
      rfl

theorem childrenOf_foldl_legend_ne (ds : List Record) (sel sel2 : String)
    (p : PageState) (h : sel2 ≠ sel) :
    childrenOf (ds.foldl (fun acc d => appendChild acc sel (legendEntry d)) p) sel2
      = childrenOf p sel2 := by
  induction ds generalizing p with
  | nil => rfl
  | cons d ds ih =>
      simp only [List.foldl_cons]
      rw [ih (appendChild p sel (legendEntry d)),
        childrenOf_appendChild_ne p sel sel2 (legendEntry d) h]

theorem hasElem_foldl_legend (ds : List Record) (sel sel2 : String)
    (p : PageState) :
    hasElem (ds.foldl (fun acc d => appendChild acc sel (legendEntry d)) p) sel2
      = hasElem p sel2 := by
  induction ds generalizing p with
  | nil => rfl
  | cons d ds ih =>
      simp only [List.foldl_cons]
      rw [ih (appendChild p sel (legendEntry d)), hasElem_appendChild]

theorem pieMountItems_no_legendDiv (typed : List Record) :
    ∀ it ∈ pieMountItems typed, ∀ w a, it ≠ .legendDiv w a := by
  intro it hit w a
  rcases List.mem_append.mp hit with h | h
  · unfold pieArcsOf at h
    split at h
    · obtain ⟨pp, _, rfl⟩ := List.mem_map.mp h
      simp
    · exact absurd h (List.not_mem_nil it)
  · obtain ⟨d, _, rfl⟩ := List.mem_map.mp h
    simp

/- ### Claim theorem: the legend is a shared global element (C10) -/

/-- C10.  `simplePieChart` writes its legend to the fixed global
`.legend` element, not to the caller's mount point: on a successful
fetch one legend div per record is appended to `.legend` regardless of
`chartLocation`; the mount point receives only the svg content, none
of which is a legend div; and a second call (any mount, any labels)
appends further entries to the same shared legend element. -/
theorem simplePieChart_legend_global
    (rows rows2 : List Record) (x y x2 y2 loc loc2 : String) (p : PageState)
    (hleg : hasElem p legendSelector = true)
    (hlocE : hasElem p loc = true)
    (hloc : loc ≠ legendSelector) (hloc2 : loc2 ≠ legendSelector) :
    childrenOf ((runSimplePieChart (.ok rows) x y loc p).1) legendSelector
      = childrenOf p legendSelector
          ++ (coerceDataSLC x y rows).map legendEntry ∧
    childrenOf ((runSimplePieChart (.ok rows) x y loc p).1) loc
      = childrenOf p loc ++ [.svgSkeleton]
          ++ pieMountItems (coerceDataSLC x y rows) ∧
    (∀ it ∈ pieMountItems (coerceDataSLC x y rows),
      ∀ w a, it ≠ .legendDiv w a) ∧
    childrenOf ((runSimplePieChart (.ok rows2) x2 y2 loc2
        ((runSimplePieChart (.ok rows) x y loc p).1)).1) legendSelector
      = childrenOf p legendSelector
          ++ (coerceDataSLC x y rows).map legendEntry
          ++ (coerceDataSLC x2 y2 rows2).map legendEntry := by
  have hstep : ∀ (rs : List Record) (xx yy ll : String) (q : PageState),
      hasElem q legendSelector = true → ll ≠ legendSelector →
      childrenOf ((runSimplePieChart (.ok rs) xx yy ll q).1) legendSelector
        = childrenOf q legendSelector
            ++ (coerceDataSLC xx yy rs).map legendEntry := by
    intro rs xx yy ll q hq hll
    simp only [runSimplePieChart]
    rw [childrenOf_foldl_legend_self _ _ _
        (by
          rw [hasElem_foldl_items, hasElem_appendChild]
          exact hq),
      childrenOf_foldl_items_ne _ _ _ _ (Ne.symm hll),
      childrenOf_appendChild_ne _ _ _ _ (Ne.symm hll)]
  have hlegP : ∀ (rs : List Record) (xx yy ll : String) (q : PageState),
      hasElem ((runSimplePieChart (.ok rs) xx yy ll q).1) legendSelector
        = hasElem q legendSelector := by
    intro rs xx yy ll q
    simp only [runSimplePieChart]
    rw [hasElem_foldl_legend, hasElem_foldl_items, hasElem_appendChild]
  refine ⟨hstep rows x y loc p hleg hloc, ?_, pieMountItems_no_legendDiv _, ?_⟩
  · simp only [runSimplePieChart]
    rw [childrenOf_foldl_legend_ne _ _ _ _ hloc,
      childrenOf_foldl_items_self _ _ _
        (by rw [hasElem_appendChild]; exact hlocE),
      childrenOf_appendChild_self _ _ _ hlocE]
  · rw [hstep rows2 x2 y2 loc2 _ (by rw [hlegP]; exact hleg) hloc2,
      hstep rows x y loc p hleg hloc]

/-- Witness for C10: two concrete calls on a page holding a mount
element, a second mount element and the shared `.legend` element. -/
theorem simplePieChart_legend_global_witness :
    childrenOf ((runSimplePieChart
        (.ok [[("week", JSVal.vnum (JSNum.num 1)),
               ("amount", JSVal.vnum (JSNum.num 10))]])
        "week" "amount" "#chart"
        ⟨[("#chart", []), ("#chart2", []), (".legend", [])]⟩).1) legendSelector
      = childrenOf ⟨[("#chart", []), ("#chart2", []), (".legend", [])]⟩
          legendSelector
        ++ (coerceDataSLC "week" "amount"
            [[("week", JSVal.vnum (JSNum.num 1)),
              ("amount", JSVal.vnum (JSNum.num 10))]]).map legendEntry ∧
    childrenOf ((runSimplePieChart
        (.ok [[("week", JSVal.vnum (JSNum.num 2)),
               ("amount", JSVal.vnum (JSNum.num 30))]])
        "week" "amount" "#chart2"
        ((runSimplePieChart
          (.ok [[("week", JSVal.vnum (JSNum.num 1)),
                 ("amount", JSVal.vnum (JSNum.num 10))]])
          "week" "amount" "#chart"
          ⟨[("#chart", []), ("#chart2", []), (".legend", [])]⟩).1)).1)
        legendSelector
      = childrenOf ⟨[("#chart", []), ("#chart2", []), (".legend", [])]⟩
          legendSelector
        ++ (coerceDataSLC "week" "amount"
            [[("week", JSVal.vnum (JSNum.num 1)),
              ("amount", JSVal.vnum (JSNum.num 10))]]).map legendEntry
        ++ (coerceDataSLC "week" "amount"
            [[("week", JSVal.vnum (JSNum.num 2)),
              ("amount", JSVal.vnum (JSNum.num 30))]]).map legendEntry := by
  have h := simplePieChart_legend_global
    [[("week", JSVal.vnum (JSNum.num 1)), ("amount", JSVal.vnum (JSNum.num 10))]]
    [[("week", JSVal.vnum (JSNum.num 2)), ("amount", JSVal.vnum (JSNum.num 30))]]
    "week" "amount" "week" "amount" "#chart" "#chart2"
    ⟨[("#chart", []), ("#chart2", []), (".legend", [])]⟩
    (by decide) (by decide) (by decide) (by decide)
  exact ⟨h.1, h.2.2.2⟩

end CsvToD3
